import Mathlib

/-!
Verification of the schema-normalization / reshape / join pipeline of the
COVID-19 dashboard.  Pure fragments of the Python source (`main.py` and the
`questions/` modules) are embedded as Lean definitions; pandas library calls
are embedded according to their documented/source semantics, noted at each
definition.  Numeric cell values are modelled as `Int` (cumulative counts),
ratio arithmetic as `Rat`, and pandas floating-point special values (NaN and
the infinities produced by division by zero) by an explicit sum type.
-/

namespace Covid

/-! ## ColumnNormalizer (`main.py`, `get_standard_column_map`) -/

/-- Substring test on character lists: `hasSub needle hay` is true when
`needle` occurs contiguously inside `hay` (Python's `needle in hay`). -/
def hasSub (needle : List Char) : List Char → Bool
  | [] => needle.isEmpty
  | c :: t => needle.isPrefixOf (c :: t) || hasSub needle t

/-- Python `col.lower().replace("_", "").replace(" ", "")` from
`get_standard_column_map`: lowercase every character, then drop every
underscore and every space. -/
def pyNormName (col : String) : List Char :=
  (col.data.map Char.toLower).filter (fun c => !(c = '_' || c = ' '))

/-- One column name's entry in `get_standard_column_map` (`main.py` lines
50-62): the if/elif chain applied to the normalized name; `none` means the
column is absent from the map (left untouched, hence treated as a date
column downstream). -/
def get_standard_column_map_entry (col : String) : Option String :=
  let l := pyNormName col
  if hasSub "province".data l || hasSub "state".data l then some "Province/State"
  else if hasSub "country".data l || hasSub "region".data l then some "Country/Region"
  else if l = "lat".data || l = "latitude".data then some "Lat"
  else if l = "long".data || l = "longitude".data then some "Long"
  else none

/-- Function `get_standard_column_map` over a list of column names: the mapping
restricted to the names that match some rule (a Python dict, represented as
an association list in column order). -/
def get_standard_column_map (cols : List String) : List (String × String) :=
  cols.filterMap (fun c => (get_standard_column_map_entry c).map (fun t => (c, t)))

/-- Modelled from the spec: the normalization rules as §4.1 states them, in
the fixed order: contains "province" or "state" → region-subdivision; else
contains "country" or "region" → country; else equals "lat"/"latitude" →
latitude; else equals "long"/"longitude" → longitude; else unmapped.  The
matching is case-insensitive after stripping underscores and spaces. -/
def normalize_columns_spec (col : String) : Option String :=
  let l := pyNormName col
  if hasSub "province".data l then some "Province/State"
  else if hasSub "state".data l then some "Province/State"
  else if hasSub "country".data l then some "Country/Region"
  else if hasSub "region".data l then some "Country/Region"
  else if l = "lat".data then some "Lat"
  else if l = "latitude".data then some "Lat"
  else if l = "long".data then some "Long"
  else if l = "longitude".data then some "Long"
  else none

/-! ## Aggregator: consecutive difference (`q6` line 166 / `q5` line 33,
`series.diff().fillna(0)`) -/

/-- Tail of `Series.diff`: each element minus its predecessor. -/
def diffAux (prev : Int) : List Int → List Int
  | [] => []
  | y :: ys => (y - prev) :: diffAux y ys

/-- Series `diff().fillna(0)`: pandas `diff` yields NaN at position 0 and
`value[i] - value[i-1]` afterwards; `fillna(0)` turns the leading NaN into
0.  No other element can be NaN when the input has no missing values. -/
def diff_fillna0 : List Int → List Int
  | [] => []
  | x :: xs => 0 :: diffAux x xs

/-! ## Aggregator: ratio derivations (`q8` lines 67, 132, 216) -/

/-- A pandas float cell: a finite rational, NaN, or a signed infinity.
Division of numeric series never raises in pandas; `0/0` is NaN and
`x/0` for `x ≠ 0` is a signed infinity. -/
inductive PdFloat
  | num (q : Rat)
  | nan
  | posInf
  | negInf
deriving DecidableEq

/-- pandas elementwise division of two numeric cells. -/
def pdDiv (a b : Rat) : PdFloat :=
  if b ≠ 0 then .num (a / b)
  else if a = 0 then .nan
  else if 0 < a then .posInf
  else .negInf

/-- Multiplication of a pandas float cell by the scalar 100. -/
def pdMul100 : PdFloat → PdFloat
  | .num q => .num (q * 100)
  | .nan => .nan
  | .posInf => .posInf
  | .negInf => .negInf

/-- Pandas `fillna(0)` on one cell: NaN becomes 0, everything else is kept. -/
def pdFillna0 : PdFloat → PdFloat
  | .nan => .num 0
  | v => v

/-- Expression `(monthly_data "Deaths" / monthly_data "Confirmed" * 100).fillna(0)`
(`q8_combined_analysis.py` line 67; line 216 is the same expression for
recoveries): the Death_Rate cell computed from one deaths count and one
confirmed count. -/
def death_rate_cell (deaths confirmed : Rat) : PdFloat :=
  pdFillna0 (pdMul100 (pdDiv deaths confirmed))

/-- Expression `(total_recovered / total_confirmed * 100) if total_confirmed > 0 else 0`
(`q8_combined_analysis.py` line 132): the guarded scalar form of the same
ratio derivation. -/
def recovery_rate_guarded (recovered confirmed : Rat) : Rat :=
  if 0 < confirmed then recovered / confirmed * 100 else 0

/-! ## Data model for the reshaped (long) tables -/

/-- The four identity columns of a location row. -/
structure Ident where
  prov : String
  country : String
  lat : Int
  lon : Int
deriving DecidableEq

/-- One observation row of a long table: identity, date header, value. -/
structure LongRow where
  id : Ident
  date : String
  val : Int
deriving DecidableEq

/-- One row of a normalized wide table: identity columns plus the cell
values, positionally parallel to the table's date-column header list. -/
structure WideRow where
  id : Ident
  vals : List Int
deriving DecidableEq

/-- A normalized wide table: the date-column headers (every column that is
not one of the four identity columns, in header order) and the rows. -/
structure WideTable where
  dateCols : List String
  rows : List WideRow
deriving DecidableEq

/-! ## Reshaper (`transform_to_long_format` in q6/q7/q8,
`convert_to_long_format` in `main.py`) -/

/-- The blocks of `df.melt`: pandas melt tiles the id columns once per value
column and ravels the value matrix in column-major ("F") order, so the
output lists every row for the first date column, then every row for the
second date column, and so on.  `j` is the positional index of the first
remaining date column. -/
def meltBlocks (rows : List WideRow) : Nat → List String → List LongRow
  | _, [] => []
  | j, d :: ds =>
    rows.map (fun r => ⟨r.id, d, r.vals.getD j 0⟩) ++ meltBlocks rows (j + 1) ds

/-- Functions `transform_to_long_format` / `convert_to_long_format`: melt the wide
table over its date columns (`id_vars` the four identity columns,
`value_vars` the date columns, `var_name="Date"`).  Date headers are kept
as header strings; `pd.to_datetime` relabels them bijectively and does not
reorder or drop rows. -/
def transform_to_long_format (t : WideTable) : List LongRow :=
  meltBlocks t.rows 0 t.dateCols

/-- The column list of the melted frame: `id_vars ++ [var_name, value_name]`,
i.e. the four identity columns, then "Date", then the value column. -/
def long_format_columns (value_column : String) : List String :=
  ["Province/State", "Country/Region", "Lat", "Long", "Date", value_column]

/-- Modelled from the spec: the id-row-major output ordering §4.3 claims for
the Reshaper (all observations of the first input row, in date-column
order, then all observations of the second input row, and so on). -/
def rowObs (r : WideRow) : Nat → List String → List LongRow
  | _, [] => []
  | j, d :: ds => ⟨r.id, d, r.vals.getD j 0⟩ :: rowObs r (j + 1) ds

/-- Modelled from the spec: the whole reshaped table in the claimed
id-row-major order. -/
def reshape_row_major (t : WideTable) : List LongRow :=
  t.rows.flatMap (fun r => rowObs r 0 t.dateCols)

/-- The date-column-major ordering actually produced by `df.melt`, written
with the standard enumeration combinators: for each (index, header) pair of
the date-column list, all input rows in input order. -/
def reshape_col_major (t : WideTable) : List LongRow :=
  t.dateCols.enum.flatMap (fun p => t.rows.map (fun r => ⟨r.id, p.2, r.vals.getD p.1 0⟩))

/-! ## Pivoting a long table back to wide form (round-trip law §8) -/

/-- Deduplication keeping the first occurrence of each element (the order in
which a pivot collects its distinct (identity) keys from the long table). -/
def firstDedupAux {α : Type} [DecidableEq α] (seen : List α) : List α → List α
  | [] => []
  | a :: l => if a ∈ seen then firstDedupAux seen l else a :: firstDedupAux (a :: seen) l

/-- Deduplication keeping first occurrences, starting from nothing seen. -/
def firstDedup {α : Type} [DecidableEq α] (l : List α) : List α :=
  firstDedupAux [] l

/-- The value a pivot places at cell (identity `i`, date `d`): the value of
the first long row carrying that key (0 if none, unreachable for keys taken
from the table itself). -/
def lookupVal (long : List LongRow) (i : Ident) (d : String) : Int :=
  match long.find? (fun x => decide (x.id = i) && decide (x.date = d)) with
  | some x => x.val
  | none => 0

/-- Pivot a long table back to wide form on (identity, date): one output row
per distinct identity tuple in order of first appearance, with the value
cells read back per date column. -/
def pivot_back (dateCols : List String) (long : List LongRow) : List WideRow :=
  (firstDedup (long.map (fun x => x.id))).map
    (fun i => ⟨i, dateCols.map (fun d => lookupVal long i d)⟩)

/-! ## Joiner (`pd.merge(..., on=[5-tuple], how='inner')`, q7 lines 78-91,
q8 lines 38-43) -/

/-- The five-tuple merge key: the four identity columns plus the date. -/
structure JoinKey where
  prov : String
  country : String
  lat : Int
  lon : Int
  date : String
deriving DecidableEq

/-- Call `pd.merge(l, r, on=key_cols, how='inner')` for tables that share no
non-key columns: for each left row in order, one output row per right row
with an equal key (right matches in right order) — the relational inner
join, keeping duplicate-key cross products. -/
def mergeInner {α β : Type} (l : List (JoinKey × α)) (r : List (JoinKey × β)) :
    List (JoinKey × (α × β)) :=
  l.flatMap (fun a => (r.filter (fun b => decide (b.1 = a.1))).map (fun b => (a.1, (a.2, b.2))))

/-- The three-way merge of q7/q8: confirmed with deaths, then the result
with recovered, both inner joins on the five-tuple key. -/
def inner_join_three (c d r : List (JoinKey × Int)) : List (JoinKey × ((Int × Int) × Int)) :=
  mergeInner (mergeInner c d) r

/-- The key column list of a long/joined table. -/
def keysOf {α : Type} (t : List (JoinKey × α)) : List JoinKey :=
  t.map Prod.fst

/-! ## Aggregator: top-N / ranking tie behavior (q6 lines 176-177, q7 lines
137-138) -/

/-- One insertion step of a stable ascending argsort: index `i` (arriving
later) is placed after every already-placed index whose value is ≤ its
own. -/
def insertAsc (vals : List Int) (i : Nat) : List Nat → List Nat
  | [] => [i]
  | j :: js => if vals.getD j 0 ≤ vals.getD i 0 then j :: insertAsc vals i js else i :: j :: js

/-- Stable ascending argsort of a value list (numpy argsort is an insertion
sort below the quicksort partition threshold, so on small inputs ties keep
their input order). -/
def argsortAsc (vals : List Int) : List Nat :=
  (List.range vals.length).foldl (fun acc i => insertAsc vals i acc) []

/-- Call `df.sort_values(col, ascending=False)`: pandas `nargsort` (pandas
`core/sorting.py`) reverses the value array and the index array, computes
the ascending argsort of the reversed values (stable on small inputs, where
numpy quicksort falls back to insertion sort), indexes the reversed index
array with that argsort, and finally reverses the resulting indexer.  The
two reversals cancel on tied values, so ties keep their input order. -/
def sort_values_desc (pairs : List (String × Int)) : List (String × Int) :=
  (((argsortAsc ((pairs.map Prod.snd).reverse)).filterMap
      (fun i => ((List.range pairs.length).reverse)[i]?)).reverse).filterMap
    (fun i => pairs[i]?)

/-- Call `df.sort_values(col, ascending=False).head(n)` keyed by the label
column — the q6 top-N ranking. -/
def sort_values_desc_head (n : Nat) (pairs : List (String × Int)) : List String :=
  ((sort_values_desc pairs).take n).map Prod.fst

/-- One insertion step of a stable descending argsort: index `i` is placed
after every already-placed index whose value is ≥ its own. -/
def insertDesc (vals : List Int) (i : Nat) : List Nat → List Nat
  | [] => [i]
  | j :: js => if vals.getD i 0 ≤ vals.getD j 0 then j :: insertDesc vals i js else i :: j :: js

/-- Stable descending argsort: pandas `nlargest` with the default
`keep='first'` uses a stable mergesort and prioritizes first occurrences
among ties. -/
def argsortDesc (vals : List Int) : List Nat :=
  (List.range vals.length).foldl (fun acc i => insertDesc vals i acc) []

/-- Call `df.nlargest(n, col)` restricted to the label column — the q7 top-N
ranking. -/
def nlargest_head (n : Nat) (pairs : List (String × Int)) : List String :=
  (((argsortDesc (pairs.map Prod.snd)).take n).filterMap (fun i => pairs[i]?)).map Prod.fst

/-! ## MissingValueFiller (`clean_province_column`, `main.py` lines 83-88;
q3 lines 50-52) -/

/-- The pure value transformation of `clean_province_column` on the
Province/State column: `fillna("All Provinces")` followed by
`replace("", "All Provinces")`.  A cell is `none` when missing. -/
def clean_province_values (col : List (Option String)) : List (Option String) :=
  (col.map (fun v => some (v.getD "All Provinces"))).map
    (fun v => if v = some "" then some "All Provinces" else v)

/-- q3's later fill: `df_cleaned["Province/State"].fillna("Unknown")` —
only missing cells change. -/
def fill_unknown (col : List (Option String)) : List (Option String) :=
  col.map (fun v => some (v.getD "Unknown"))

/-- Function `clean_province_column` as called: the column assignment and the
`replace(..., inplace=True)` update the dataframe object that was passed
in, so the call returns the cleaned table and leaves the caller's reference
pointing at that same cleaned table.  First component: returned table;
second component: the caller's table after the call. -/
def clean_province_column_call (col : List (Option String)) :
    List (Option String) × List (Option String) :=
  (clean_province_values col, clean_province_values col)

/-- Call `df.melt(...)` as called: melt allocates a new frame and does not touch
its input.  First component: returned table; second: the caller's table
after the call. -/
def transform_to_long_format_call (t : WideTable) : List LongRow × WideTable :=
  (transform_to_long_format t, t)

/-- Call `df.rename(columns=...)` as called (`standardize_dataframe_columns`):
rename returns a relabelled copy without `inplace`, leaving the input
untouched. -/
def standardize_dataframe_columns_call (cols : List String) : List String × List String :=
  (cols.map (fun c => (get_standard_column_map_entry c).getD c), cols)

/-- Call `pd.merge(a, b, ...)` as called: merge allocates a new frame and does
not touch either input. -/
def merge_call (a b : List (JoinKey × Int)) :
    List (JoinKey × (Int × Int)) × (List (JoinKey × Int) × List (JoinKey × Int)) :=
  (mergeInner a b, (a, b))

end Covid

namespace Covid

example : get_standard_column_map_entry "Province_State" = some "Province/State" := by decide
example : get_standard_column_map_entry "1/22/20" = none := by decide
example : diff_fillna0 [0, 10, 10, 25] = [0, 10, 0, 15] := by decide
example : diff_fillna0 [10, 8] = [0, -2] := by decide
example : death_rate_cell 0 0 = PdFloat.num 0 := by decide

example : sort_values_desc_head 2 [("A", 5), ("B", 5), ("C", 3)] = ["A", "B"] := by decide
example : sort_values_desc [("A", 1), ("B", 3), ("C", 2)] = [("B", 3), ("C", 2), ("A", 1)] := by
  decide
example : nlargest_head 2 [("A", 5), ("B", 5), ("C", 3)] = ["A", "B"] := by decide

example :
    transform_to_long_format
      ⟨["1/22/20", "1/23/20"],
       [⟨⟨"All Provinces", "Aland", 0, 0⟩, [1, 2]⟩,
        ⟨⟨"All Provinces", "Bland", 0, 0⟩, [3, 4]⟩]⟩ =
    [⟨⟨"All Provinces", "Aland", 0, 0⟩, "1/22/20", 1⟩,
     ⟨⟨"All Provinces", "Bland", 0, 0⟩, "1/22/20", 3⟩,
     ⟨⟨"All Provinces", "Aland", 0, 0⟩, "1/23/20", 2⟩,
     ⟨⟨"All Provinces", "Bland", 0, 0⟩, "1/23/20", 4⟩] := by decide

example :
    pivot_back ["1/22/20", "1/23/20"]
      (transform_to_long_format
        ⟨["1/22/20", "1/23/20"],
         [⟨⟨"All Provinces", "Aland", 0, 0⟩, [1, 2]⟩,
          ⟨⟨"All Provinces", "Bland", 0, 0⟩, [3, 4]⟩]⟩) =
    [⟨⟨"All Provinces", "Aland", 0, 0⟩, [1, 2]⟩,
     ⟨⟨"All Provinces", "Bland", 0, 0⟩, [3, 4]⟩] := by decide

example :
    inner_join_three
      [(⟨"p", "A", 0, 0, "1/22/20"⟩, 5)]
      [(⟨"p", "A", 0, 0, "1/22/20"⟩, 2)]
      [(⟨"p", "A", 0, 0, "1/22/20"⟩, 1)] =
    [(⟨"p", "A", 0, 0, "1/22/20"⟩, ((5, 2), 1))] := by decide

example : clean_province_values [none, some "", some "Hubei"] =
    [some "All Provinces", some "All Provinces", some "Hubei"] := by decide

/-! ## Helper lemmas -/

theorem diffAux_length (prev : Int) (l : List Int) : (diffAux prev l).length = l.length := by
  induction l generalizing prev with
  | nil => rfl
  | cons y ys ih => simp [diffAux, ih]

theorem diffAux_getD (prev : Int) (l : List Int) (j : Nat) (hj : j < l.length) :
    (diffAux prev l).getD j 0 = l.getD j 0 - (prev :: l).getD j 0 := by
  induction l generalizing prev j with
  | nil => simp at hj
  | cons y ys ih =>
    cases j with
    | zero => simp [diffAux]
    | succ k =>
      simp only [diffAux, List.getD_cons_succ]
      exact ih y k (by simpa using hj)

theorem keysOf_mergeInner {α β : Type} (l : List (JoinKey × α)) (r : List (JoinKey × β))
    (k : JoinKey) :
    k ∈ keysOf (mergeInner l r) ↔ k ∈ keysOf l ∧ k ∈ keysOf r := by
  simp only [keysOf, mergeInner, List.mem_map, List.mem_flatMap, List.mem_filter,
    decide_eq_true_eq]
  constructor
  · rintro ⟨x, ⟨a, ha, ⟨b, ⟨hb, hba⟩, rfl⟩⟩, rfl⟩
    exact ⟨⟨a, ha, rfl⟩, ⟨b, hb, hba⟩⟩
  · rintro ⟨⟨a, ha, rfl⟩, ⟨b, hb, hbk⟩⟩
    exact ⟨(a.1, (a.2, b.2)), ⟨a, ha, ⟨b, ⟨hb, hbk⟩, rfl⟩⟩, rfl⟩

theorem meltBlocks_length (rows : List WideRow) (j : Nat) (ds : List String) :
    (meltBlocks rows j ds).length = rows.length * ds.length := by
  induction ds generalizing j with
  | nil => simp [meltBlocks]
  | cons dd ds ih =>
    simp only [meltBlocks, List.length_append, List.length_map, List.length_cons, ih]
    ring

theorem meltBlocks_enumFrom (rows : List WideRow) (j : Nat) (ds : List String) :
    meltBlocks rows j ds =
      (List.enumFrom j ds).flatMap
        (fun p => rows.map (fun r => ⟨r.id, p.2, r.vals.getD p.1 0⟩)) := by
  induction ds generalizing j with
  | nil => rfl
  | cons dd ds ih => simp [meltBlocks, ih, List.enumFrom, List.flatMap_cons]

theorem clean_province_values_mem (col : List (Option String)) (v : Option String)
    (hv : v ∈ clean_province_values col) : ∃ s, v = some s ∧ s ≠ "" := by
  unfold clean_province_values at hv
  simp only [List.map_map, List.mem_map, Function.comp] at hv
  obtain ⟨u, _, rfl⟩ := hv
  cases u with
  | none => exact ⟨"All Provinces", by decide, by decide⟩
  | some s =>
    by_cases hs : s = ""
    · exact ⟨"All Provinces", by simp [hs], by decide⟩
    · exact ⟨s, by simp [hs], hs⟩

theorem map_getD_some (l : List (Option String)) (dflt : String)
    (h : ∀ v ∈ l, ∃ s, v = some s) : l.map (fun v => some (v.getD dflt)) = l := by
  induction l with
  | nil => rfl
  | cons a l ih =>
    obtain ⟨s, hs⟩ := h a (by simp)
    simp only [List.map_cons, hs, Option.getD_some]
    rw [ih (fun v hv => h v (by simp [hv]))]

theorem insertAsc_all_le (vals : List Int) (i : Nat) (acc : List Nat)
    (h : ∀ j ∈ acc, vals.getD j 0 ≤ vals.getD i 0) : insertAsc vals i acc = acc ++ [i] := by
  induction acc with
  | nil => rfl
  | cons j js ih =>
    simp only [insertAsc, if_pos (h j (by simp)), List.cons_append]
    rw [ih (fun x hx => h x (by simp [hx]))]

theorem insertDesc_all_ge (vals : List Int) (i : Nat) (acc : List Nat)
    (h : ∀ j ∈ acc, vals.getD i 0 ≤ vals.getD j 0) : insertDesc vals i acc = acc ++ [i] := by
  induction acc with
  | nil => rfl
  | cons j js ih =>
    simp only [insertDesc, if_pos (h j (by simp)), List.cons_append]
    rw [ih (fun x hx => h x (by simp [hx]))]

theorem argsortAsc_all_eq (vals : List Int) (c : Int) (hc : ∀ v ∈ vals, v = c) :
    argsortAsc vals = List.range vals.length := by
  suffices h : ∀ k, k ≤ vals.length →
      (List.range k).foldl (fun acc i => insertAsc vals i acc) [] = List.range k from
    h vals.length le_rfl
  intro k hk
  induction k with
  | zero => rfl
  | succ m ih =>
    rw [List.range_succ, List.foldl_append, ih (Nat.le_of_succ_le hk)]
    simp only [List.foldl_cons, List.foldl_nil]
    rw [insertAsc_all_le, ← List.range_succ]
    intro j hj
    have hj' : j < vals.length := lt_of_lt_of_le (List.mem_range.mp hj) (Nat.le_of_succ_le hk)
    have hm : m < vals.length := hk
    rw [List.getD_eq_getElem vals 0 hj', List.getD_eq_getElem vals 0 hm,
      hc _ (List.getElem_mem hj'), hc _ (List.getElem_mem hm)]

theorem argsortDesc_all_eq (vals : List Int) (c : Int) (hc : ∀ v ∈ vals, v = c) :
    argsortDesc vals = List.range vals.length := by
  suffices h : ∀ k, k ≤ vals.length →
      (List.range k).foldl (fun acc i => insertDesc vals i acc) [] = List.range k from
    h vals.length le_rfl
  intro k hk
  induction k with
  | zero => rfl
  | succ m ih =>
    rw [List.range_succ, List.foldl_append, ih (Nat.le_of_succ_le hk)]
    simp only [List.foldl_cons, List.foldl_nil]
    rw [insertDesc_all_ge, ← List.range_succ]
    intro j hj
    have hj' : j < vals.length := lt_of_lt_of_le (List.mem_range.mp hj) (Nat.le_of_succ_le hk)
    have hm : m < vals.length := hk
    rw [List.getD_eq_getElem vals 0 hj', List.getD_eq_getElem vals 0 hm,
      hc _ (List.getElem_mem hj'), hc _ (List.getElem_mem hm)]

theorem filterMap_range_getElem {α : Type} (l : List α) (m : Nat)
    (hm : m ≤ l.length) :
    (List.range m).filterMap (fun i => l[i]?) = l.take m := by
  induction m with
  | zero => simp
  | succ k ih =>
    have hk : k < l.length := hm
    have hone : List.filterMap (fun i => l[i]?) [k] = [l[k]] := by
      simp [List.getElem?_eq_getElem hk]
    rw [List.range_succ, List.filterMap_append, ih (Nat.le_of_succ_le hm), hone,
      List.take_succ, List.getElem?_eq_getElem hk]
    rfl

theorem sort_values_desc_all_eq (pairs : List (String × Int)) (c : Int)
    (hc : ∀ p ∈ pairs, p.2 = c) : sort_values_desc pairs = pairs := by
  have hvals : ∀ v ∈ (pairs.map Prod.snd).reverse, v = c := by
    intro v hv
    rw [List.mem_reverse] at hv
    obtain ⟨p, hp, rfl⟩ := List.mem_map.mp hv
    exact hc p hp
  have hlen : ((pairs.map Prod.snd).reverse).length = pairs.length := by simp
  unfold sort_values_desc
  rw [argsortAsc_all_eq _ c hvals, hlen,
    filterMap_range_getElem ((List.range pairs.length).reverse) pairs.length (by simp),
    List.take_of_length_le (by simp), List.reverse_reverse,
    filterMap_range_getElem pairs pairs.length le_rfl, List.take_length]

/-! ## Claim theorems -/

/-- C2: column normalization maps each name by case-insensitive substring
matching after stripping underscores and spaces, with the rules evaluated in
the fixed order province/state, country/region, lat/latitude,
long/longitude; the sample header maps to the four canonical identities with
"1/22/20" unmapped, and a name matching several rules gets the first rule in
that order ("Country_State" contains both "country" and "state" and maps to
Province/State). -/
theorem normalize_columns_correct :
    (∀ col, get_standard_column_map_entry col = normalize_columns_spec col) ∧
    get_standard_column_map ["Province_State", "Country_Region", "Lat", "Long", "1/22/20"] =
      [("Province_State", "Province/State"), ("Country_Region", "Country/Region"),
       ("Lat", "Lat"), ("Long", "Long")] ∧
    get_standard_column_map_entry "1/22/20" = none ∧
    get_standard_column_map_entry "Country_State" = some "Province/State" := by
  refine ⟨?_, by decide, by decide, by decide⟩
  intro col
  unfold get_standard_column_map_entry normalize_columns_spec
  by_cases h1 : hasSub "province".data (pyNormName col) = true
  · simp [h1]
  · by_cases h2 : hasSub "state".data (pyNormName col) = true
    · simp [h1, h2]
    · by_cases h3 : hasSub "country".data (pyNormName col) = true
      · simp [h1, h2, h3]
      · by_cases h4 : hasSub "region".data (pyNormName col) = true
        · simp [h1, h2, h3, h4]
        · by_cases h5 : pyNormName col = "lat".data
          · simp only [h5]
            decide
          · by_cases h6 : pyNormName col = "latitude".data
            · simp only [h6]
              decide
            · by_cases h7 : pyNormName col = "long".data
              · simp only [h7]
                decide
              · by_cases h8 : pyNormName col = "longitude".data
                · simp only [h8]
                  decide
                · simp [h1, h2, h3, h4, h5, h6, h7, h8]

/-- C4: the consecutive-difference aggregation keeps the length, puts 0 (not
a missing marker) at the first position, computes value i minus value (i-1)
at every later position, and preserves negative differences, as on the
concrete series [0,10,10,25] and [10,8]. -/
theorem diff_fillna0_correct (l : List Int) (i : Nat) (h0 : 0 < i) (hi : i < l.length) :
    (diff_fillna0 l).length = l.length ∧
    (diff_fillna0 l).head? = some 0 ∧
    (diff_fillna0 l).getD i 0 = l.getD i 0 - l.getD (i - 1) 0 ∧
    diff_fillna0 [0, 10, 10, 25] = [0, 10, 0, 15] ∧
    diff_fillna0 [10, 8] = [0, -2] := by
  match l, hi with
  | x :: xs, hi =>
    refine ⟨by simp [diff_fillna0, diffAux_length], rfl, ?_, by decide, by decide⟩
    match i, h0 with
    | k + 1, _ =>
      simp only [diff_fillna0, List.getD_cons_succ, Nat.add_sub_cancel]
      exact diffAux_getD x xs k (by simpa using hi)

/-- C4 witness: the theorem applied to the series [0,10,10,25] at index 1. -/
theorem diff_fillna0_correct_witness : diff_fillna0 [10, 8] = [0, -2] :=
  (diff_fillna0_correct [0, 10, 10, 25] 1 (by decide) (by decide)).2.2.2.2

/-- C5: the ratio derivations of q8 define 0/0 as exactly 0 — the
fillna(0)-based Death_Rate cell yields the number 0 at 0/0 and is never NaN,
and the guarded scalar recovery rate yields 0 at 0/0; both are total
functions, so no division-by-zero error is raised. -/
theorem ratio_zero_over_zero (d c : Rat) :
    death_rate_cell 0 0 = PdFloat.num 0 ∧
    death_rate_cell d c ≠ PdFloat.nan ∧
    recovery_rate_guarded 0 0 = 0 := by
  refine ⟨by simp [death_rate_cell, pdDiv, pdMul100, pdFillna0], ?_,
    by simp [recovery_rate_guarded]⟩
  unfold death_rate_cell pdDiv
  split_ifs <;> simp [pdMul100, pdFillna0]

/-- C1: in the three-way inner join on the five-tuple key, a key appears in
the output iff it appears in all three inputs, and pairwise disjoint key
sets give an empty output. -/
theorem inner_join_three_keys (c d r : List (JoinKey × Int)) :
    (∀ k, k ∈ keysOf (inner_join_three c d r) ↔
        k ∈ keysOf c ∧ k ∈ keysOf d ∧ k ∈ keysOf r) ∧
    ((∀ k ∈ keysOf c, k ∉ keysOf d) → (∀ k ∈ keysOf c, k ∉ keysOf r) →
      (∀ k ∈ keysOf d, k ∉ keysOf r) → inner_join_three c d r = []) := by
  have hiff : ∀ k, k ∈ keysOf (inner_join_three c d r) ↔
      k ∈ keysOf c ∧ k ∈ keysOf d ∧ k ∈ keysOf r := by
    intro k
    unfold inner_join_three
    rw [keysOf_mergeInner, keysOf_mergeInner, and_assoc]
  refine ⟨hiff, fun hcd _ _ => ?_⟩
  rw [List.eq_nil_iff_forall_not_mem]
  intro x hx
  have hk : x.1 ∈ keysOf (inner_join_three c d r) := List.mem_map_of_mem Prod.fst hx
  rw [hiff] at hk
  exact hcd x.1 hk.1 hk.2.1

/-- C1 witness: three one-row tables with pairwise distinct keys join to the
empty table. -/
theorem inner_join_three_keys_witness :
    inner_join_three [(⟨"p", "Aland", 0, 0, "1/22/20"⟩, 1)]
      [(⟨"p", "Bland", 0, 0, "1/22/20"⟩, 2)]
      [(⟨"p", "Cland", 0, 0, "1/22/20"⟩, 3)] = [] :=
  (inner_join_three_keys _ _ _).2 (by decide) (by decide) (by decide)

/-- C7 counterexample: the reshaped long table does not have five columns
(the claim lists six names — four identities, date, value — and the melt
output indeed has six columns). -/
theorem long_format_five_columns_false :
    ¬ ((long_format_columns "Deaths").length = 5) := by decide

/-- C7 amended: the reshape returns a long table with exactly six columns —
the four identity columns, the date and the value — and one row per
(original row, date column) pair, so its row count is the input row count
times the number of date columns. -/
theorem long_format_shape (t : WideTable) (v : String) :
    (long_format_columns v).length = 6 ∧
    long_format_columns v = ["Province/State", "Country/Region", "Lat", "Long", "Date", v] ∧
    (transform_to_long_format t).length = t.rows.length * t.dateCols.length :=
  ⟨rfl, rfl, meltBlocks_length t.rows 0 t.dateCols⟩

/-- C8 counterexample: on a two-row, two-date table the melted output is not
in id-row-major order (the second row's first-date observation precedes the
first row's second-date observation). -/
theorem reshape_row_major_false :
    transform_to_long_format
        ⟨["1/22/20", "1/23/20"],
         [⟨⟨"All Provinces", "Aland", 0, 0⟩, [1, 2]⟩,
          ⟨⟨"All Provinces", "Bland", 0, 0⟩, [3, 4]⟩]⟩ ≠
      reshape_row_major
        ⟨["1/22/20", "1/23/20"],
         [⟨⟨"All Provinces", "Aland", 0, 0⟩, [1, 2]⟩,
          ⟨⟨"All Provinces", "Bland", 0, 0⟩, [3, 4]⟩]⟩ := by decide

/-- C8 amended: the reshaped rows appear in date-column-major order — for
each date column in input header order, all input rows in input row
order. -/
theorem reshape_ordering (t : WideTable) :
    transform_to_long_format t = reshape_col_major t := by
  unfold transform_to_long_format reshape_col_major
  rw [meltBlocks_enumFrom]
  rfl

/-- C9 counterexample: clean_province_column mutates the table it is handed
(the column assignment and replace(inplace=True) update the caller's
object), so after the call the caller's table differs from the input. -/
theorem clean_province_column_mutates :
    (clean_province_column_call [none]).2 ≠ [none] := by decide

/-- C9 amended: reshaping, column renaming and merging leave their inputs
unchanged, but clean_province_column updates its argument in place: after
the call the caller's table equals the returned cleaned table, and differs
from the original whenever the original had a missing or blank province. -/
theorem pipeline_call_effects (t : WideTable) (a b : List (JoinKey × Int))
    (cols : List String) (col : List (Option String)) :
    (transform_to_long_format_call t).2 = t ∧
    (standardize_dataframe_columns_call cols).2 = cols ∧
    (merge_call a b).2 = (a, b) ∧
    (clean_province_column_call col).2 = (clean_province_column_call col).1 ∧
    ((∃ v ∈ col, v = none ∨ v = some "") → (clean_province_column_call col).2 ≠ col) := by
  refine ⟨rfl, rfl, rfl, rfl, ?_⟩
  rintro ⟨v, hv, hcase⟩ heq
  have heq' : clean_province_values col = col := heq
  have hv' : v ∈ clean_province_values col := by rw [heq']; exact hv
  obtain ⟨s, hs, hne⟩ := clean_province_values_mem col v hv'
  rcases hcase with h | h
  · rw [h] at hs; cases hs
  · rw [h] at hs
    injection hs with h2
    exact hne h2.symm

/-- C9 witness: the amended theorem applied to a one-cell column holding a
blank province. -/
theorem pipeline_call_effects_witness :
    (clean_province_column_call [some ""]).2 ≠ [some ""] :=
  (pipeline_call_effects ⟨[], []⟩ [] [] [] [some ""]).2.2.2.2 ⟨some "", by decide, Or.inr rfl⟩

/-- C10: after the load-time cleaning, every Province/State value is a
non-missing, non-empty string, so the later fillna("Unknown") of the
missing-data section changes nothing. -/
theorem load_province_invariant (col : List (Option String)) :
    (∀ v ∈ clean_province_values col, ∃ s, v = some s ∧ s ≠ "") ∧
    fill_unknown (clean_province_values col) = clean_province_values col := by
  refine ⟨fun v hv => clean_province_values_mem col v hv, ?_⟩
  unfold fill_unknown
  exact map_getD_some _ _ (fun v hv => by
    obtain ⟨s, hs, _⟩ := clean_province_values_mem col v hv
    exact ⟨s, hs⟩)

/-- C10 witness: the theorem applied to a column with one missing and one
blank cell. -/
theorem load_province_invariant_witness :
    (∃ s, (some "All Provinces" : Option String) = some s ∧ s ≠ "") ∧
    fill_unknown (clean_province_values [none, some ""]) =
      clean_province_values [none, some ""] :=
  ⟨(load_province_invariant [none, some ""]).1 (some "All Provinces") (by decide),
   (load_province_invariant [none, some ""]).2⟩

/-- C6: both top-N rankings break ties by input order: nlargest (q7,
keep='first' with a stable mergesort) and sort_values(ascending=False)
followed by head (q6, where nargsort's reversals before and after the
stable ascending argsort cancel on ties) return tied values in input order
— on all-tied inputs the output is the input prefix, and on values [5,5,3]
for countries [A,B,C] both top-2 rankings return [A,B], never [B,A]. -/
theorem topn_tie_order (pairs : List (String × Int)) (c : Int) (n : Nat)
    (hc : ∀ p ∈ pairs, p.2 = c) (hn : n ≤ pairs.length) :
    nlargest_head n pairs = (pairs.take n).map Prod.fst ∧
    sort_values_desc_head n pairs = (pairs.take n).map Prod.fst ∧
    sort_values_desc_head 2 [("A", 5), ("B", 5), ("C", 3)] = ["A", "B"] ∧
    nlargest_head 2 [("A", 5), ("B", 5), ("C", 3)] = ["A", "B"] := by
  have hvals : ∀ v ∈ pairs.map Prod.snd, v = c := by
    intro v hv
    obtain ⟨p, hp, rfl⟩ := List.mem_map.mp hv
    exact hc p hp
  have hlen : (pairs.map Prod.snd).length = pairs.length := List.length_map ..
  refine ⟨?_, ?_, by decide, by decide⟩
  · unfold nlargest_head
    rw [argsortDesc_all_eq _ c hvals, hlen, List.take_range, Nat.min_eq_left hn,
      filterMap_range_getElem pairs n hn]
  · unfold sort_values_desc_head
    rw [sort_values_desc_all_eq pairs c hc]

/-- C6 witness: the theorem applied to two tied values with top-1. -/
theorem topn_tie_order_witness :
    nlargest_head 1 [("A", 7), ("B", 7)] = ([("A", 7), ("B", 7)].take 1).map Prod.fst ∧
    sort_values_desc_head 1 [("A", 7), ("B", 7)] =
      ([("A", 7), ("B", 7)].take 1).map Prod.fst ∧
    sort_values_desc_head 2 [("A", 5), ("B", 5), ("C", 3)] = ["A", "B"] ∧
    nlargest_head 2 [("A", 5), ("B", 5), ("C", 3)] = ["A", "B"] :=
  topn_tie_order [("A", 7), ("B", 7)] 7 1 (by decide) (by decide)

/-! ## Round-trip law: helper lemmas -/

theorem firstDedupAux_all_seen {α : Type} [DecidableEq α] (seen l : List α)
    (h : ∀ x ∈ l, x ∈ seen) : firstDedupAux seen l = [] := by
  induction l generalizing seen with
  | nil => rfl
  | cons a l ih =>
    simp only [firstDedupAux, if_pos (h a (by simp))]
    exact ih seen (fun x hx => h x (by simp [hx]))

theorem firstDedupAux_append {α : Type} [DecidableEq α] (ids : List α) :
    ∀ (seen rest : List α), ids.Nodup → (∀ x ∈ ids, x ∉ seen) →
      (∀ x ∈ rest, x ∈ seen ∨ x ∈ ids) → firstDedupAux seen (ids ++ rest) = ids := by
  induction ids with
  | nil =>
    intro seen rest _ _ hrest
    exact firstDedupAux_all_seen seen rest (fun x hx => (hrest x hx).resolve_right (by simp))
  | cons a ids ih =>
    intro seen rest hnd hseen hrest
    have hnd' := List.nodup_cons.mp hnd
    simp only [List.cons_append, firstDedupAux, if_neg (hseen a (by simp))]
    congr 1
    apply ih (a :: seen) rest hnd'.2
    · intro x hx
      have hxa : x ≠ a := fun he => hnd'.1 (he ▸ hx)
      simp only [List.mem_cons]
      push_neg
      exact ⟨hxa, hseen x (by simp [hx])⟩
    · intro x hx
      rcases hrest x hx with h | h
      · exact Or.inl (by simp [h])
      · rcases List.mem_cons.mp h with rfl | h'
        · exact Or.inl (by simp)
        · exact Or.inr h'

theorem mem_meltBlocks_id (rows : List WideRow) (j : Nat) (ds : List String) (x : LongRow)
    (hx : x ∈ meltBlocks rows j ds) : x.id ∈ rows.map (fun r => r.id) := by
  induction ds generalizing j with
  | nil => simp [meltBlocks] at hx
  | cons dd ds ih =>
    simp only [meltBlocks, List.mem_append] at hx
    rcases hx with hx | hx
    · obtain ⟨r, hr, rfl⟩ := List.mem_map.mp hx
      exact List.mem_map_of_mem _ hr
    · exact ih (j + 1) hx

theorem melt_ids (t : WideTable) (hne : t.dateCols ≠ [])
    (hnd : (t.rows.map (fun r => r.id)).Nodup) :
    firstDedup ((transform_to_long_format t).map (fun x => x.id)) =
      t.rows.map (fun r => r.id) := by
  obtain ⟨d, ds, hds⟩ : ∃ d ds, t.dateCols = d :: ds := by
    cases h : t.dateCols with
    | nil => exact absurd h hne
    | cons d ds => exact ⟨d, ds, rfl⟩
  unfold transform_to_long_format firstDedup
  rw [hds]
  simp only [meltBlocks, List.map_append, List.map_map]
  have hcomp : (fun (x : LongRow) => x.id) ∘
      (fun r => (⟨WideRow.id r, d, r.vals.getD 0 0⟩ : LongRow)) = fun r => WideRow.id r := rfl
  rw [hcomp]
  apply firstDedupAux_append _ _ _ hnd (by simp)
  intro x hx
  obtain ⟨y, hy, rfl⟩ := List.mem_map.mp hx
  exact Or.inr (mem_meltBlocks_id t.rows 1 ds y hy)

theorem find?_meltRow (rows : List WideRow) (r : WideRow) (d : String) (j : Nat)
    (hnd : (rows.map (fun x => x.id)).Nodup) (hr : r ∈ rows) :
    (rows.map (fun x => (⟨x.id, d, x.vals.getD j 0⟩ : LongRow))).find?
        (fun x => decide (x.id = r.id) && decide (x.date = d)) =
      some ⟨r.id, d, r.vals.getD j 0⟩ := by
  induction rows with
  | nil => simp at hr
  | cons a rows ih =>
    have hnd' := List.nodup_cons.mp hnd
    rcases List.mem_cons.mp hr with rfl | hr'
    · rw [List.map_cons]
      rw [List.find?_cons_of_pos _ (by simp)]
    · have hane : ¬ (a.id = r.id) := by
        intro he
        apply hnd'.1
        show a.id ∈ List.map (fun x => x.id) rows
        rw [he]
        exact List.mem_map_of_mem _ hr'
      rw [List.map_cons]
      rw [List.find?_cons_of_neg _ (by simp [hane])]
      exact ih hnd'.2 hr'

theorem find?_meltRow_ne (rows : List WideRow) (i : Ident) (d dq : String) (j : Nat)
    (hne : dq ≠ d) :
    (rows.map (fun x => (⟨x.id, d, x.vals.getD j 0⟩ : LongRow))).find?
        (fun x => decide (x.id = i) && decide (x.date = dq)) = none := by
  rw [List.find?_eq_none]
  intro x hx
  obtain ⟨rr, _, rfl⟩ := List.mem_map.mp hx
  simp [Ne.symm hne]

theorem find?_melt (rows : List WideRow) (r : WideRow) (hr : r ∈ rows)
    (hnd : (rows.map (fun x => x.id)).Nodup) :
    ∀ (ds : List String) (j m : Nat), (hm : m < ds.length) → ds.Nodup →
      (meltBlocks rows j ds).find?
          (fun x => decide (x.id = r.id) && decide (x.date = ds[m])) =
        some ⟨r.id, ds[m], r.vals.getD (j + m) 0⟩ := by
  intro ds
  induction ds with
  | nil =>
    intro j m hm _
    simp at hm
  | cons d ds ih =>
    intro j m hm hnd2
    have hnd2' := List.nodup_cons.mp hnd2
    cases m with
    | zero =>
      simp only [List.getElem_cons_zero, meltBlocks, Nat.add_zero]
      rw [List.find?_append, find?_meltRow rows r d j hnd hr]
      rfl
    | succ mq =>
      have hmq : mq < ds.length := by simpa using hm
      have hdq : ds[mq] ≠ d := fun he => hnd2'.1 (he ▸ List.getElem_mem hmq)
      simp only [List.getElem_cons_succ, meltBlocks]
      rw [List.find?_append, find?_meltRow_ne rows r.id d (ds[mq]) j hdq]
      have hidx : j + (mq + 1) = (j + 1) + mq := by omega
      rw [hidx, ← ih (j + 1) mq hmq hnd2'.2]
      rfl

theorem pivot_vals_row (t : WideTable) (r : WideRow) (hr : r ∈ t.rows)
    (hnd : (t.rows.map (fun x => x.id)).Nodup) (hdates : t.dateCols.Nodup)
    (hlen : r.vals.length = t.dateCols.length) :
    t.dateCols.map (fun d => lookupVal (transform_to_long_format t) r.id d) = r.vals := by
  apply List.ext_getElem
  · rw [List.length_map, hlen]
  intro m h1 h2
  rw [List.getElem_map]
  have h1' : m < t.dateCols.length := by simpa using h1
  unfold lookupVal transform_to_long_format
  rw [find?_melt t.rows r hr hnd t.dateCols 0 m h1' hdates]
  show r.vals.getD (0 + m) 0 = r.vals[m]
  rw [Nat.zero_add, List.getD_eq_getElem r.vals 0 h2]

/-- C3: for a well-formed wide table (distinct identity tuples, distinct
date headers, every row carrying one value per date column, at least one
date column), reshaping to long format and pivoting back on (identity,
date) reproduces the original wide table exactly. -/
theorem reshape_round_trip (t : WideTable)
    (hids : (t.rows.map (fun r => r.id)).Nodup)
    (hdates : t.dateCols.Nodup)
    (hlen : ∀ r ∈ t.rows, r.vals.length = t.dateCols.length)
    (hne : t.dateCols ≠ []) :
    pivot_back t.dateCols (transform_to_long_format t) = t.rows := by
  unfold pivot_back
  rw [melt_ids t hne hids, List.map_map]
  have hrow : ∀ r ∈ t.rows,
      ((fun i => (⟨i, t.dateCols.map (fun d => lookupVal (transform_to_long_format t) i d)⟩ :
          WideRow)) ∘ (fun r => r.id)) r = r := by
    intro r hr
    simp only [Function.comp_apply]
    rw [pivot_vals_row t r hr hids hdates (hlen r hr)]
  rw [List.map_congr_left hrow, List.map_id']

/-- C3 witness: the round-trip theorem applied to a concrete well-formed
two-row, two-date table. -/
theorem reshape_round_trip_witness :
    pivot_back ["1/22/20", "1/23/20"]
        (transform_to_long_format
          ⟨["1/22/20", "1/23/20"],
           [⟨⟨"All Provinces", "Aland", 0, 0⟩, [1, 2]⟩,
            ⟨⟨"All Provinces", "Bland", 0, 0⟩, [3, 4]⟩]⟩) =
      [⟨⟨"All Provinces", "Aland", 0, 0⟩, [1, 2]⟩,
       ⟨⟨"All Provinces", "Bland", 0, 0⟩, [3, 4]⟩] :=
  reshape_round_trip
    ⟨["1/22/20", "1/23/20"],
     [⟨⟨"All Provinces", "Aland", 0, 0⟩, [1, 2]⟩,
      ⟨⟨"All Provinces", "Bland", 0, 0⟩, [3, 4]⟩]⟩
    (by decide) (by decide) (by decide) (by decide)

end Covid
